import Mathlib

/-!
Shallow embedding of the `cyclonedx-validation-tests` repository
(`src/validation.rs` and `src/lib.rs`).

Modelling conventions:
* Rust `String` is Lean `String`; Rust `str::len()` (a UTF-8 byte count) is
  `String.utf8ByteSize`.
* The insertion-ordered `IndexMap<String, ValidationErrorsKind>` is modelled
  as an association list `List (String × ValidationErrorsKind)` in insertion
  order; `entry`-vacancy checks become key lookups, and inserting a fresh key
  appends at the end (exactly `IndexMap`'s behaviour).
* The `BTreeMap<usize, ValidationErrors>` inside the `List` kind is modelled
  as an association list with strictly ascending keys; the only producer
  (`merge_list`) generates its keys by `enumerate`, already strictly
  ascending and duplicate-free, so collecting into a `BTreeMap` yields
  exactly that list.
* Rust panics (`add_nested`, `add_enum`, `add_field` contract violations)
  are modelled by returning `none`; every function that can transitively
  panic therefore returns an `Option`.
* Rust `Result<(), ValidationError>` is `Except ValidationError Unit`.
-/

namespace CycloneDx

/-- Rust `SpecVersion` (validation.rs lines 5-10). -/
inductive SpecVersion where
  | V1_3
  | V1_4
  | V1_5
deriving DecidableEq

/-- Rust `ValidationError` (validation.rs lines 137-148): a message string. -/
structure ValidationError where
  message : String
deriving DecidableEq

mutual

/-- Rust `ValidationErrorsKind` (validation.rs lines 151-161). -/
inductive ValidationErrorsKind where
  | Struct : ValidationErrors → ValidationErrorsKind
  | List : List (Nat × ValidationErrors) → ValidationErrorsKind
  | Field : List ValidationError → ValidationErrorsKind
  | Enum : ValidationError → ValidationErrorsKind

/-- Rust `ValidationErrors` (validation.rs lines 163-167): an
insertion-ordered map from name to kind, modelled as an association list. -/
inductive ValidationErrors where
  | mk : List (String × ValidationErrorsKind) → ValidationErrors

end

/-- The `inner` field accessor of `ValidationErrors`. -/
def ValidationErrors.inner : ValidationErrors → List (String × ValidationErrorsKind)
  | .mk l => l

/-- Rust `ValidationResult` (validation.rs lines 13-17). -/
inductive ValidationResult where
  | Passed
  | Error : ValidationErrors → ValidationResult

/-- Rust `ValidationResult::default()` (validation.rs lines 19-23). -/
def ValidationResult.default : ValidationResult := .Passed

/-- Rust `ValidationResult::passed` (validation.rs lines 26-28). -/
def ValidationResult.passed : ValidationResult → Bool
  | .Passed => true
  | .Error _ => false

/-- Rust `ValidationResult::has_errors` (validation.rs lines 30-32). -/
def ValidationResult.has_errors : ValidationResult → Bool
  | .Passed => false
  | .Error _ => true

/-- Rust `ValidationResult::errors` (validation.rs lines 34-39). -/
def ValidationResult.errors : ValidationResult → Option ValidationErrors
  | .Passed => none
  | .Error e => some e

/-- Rust `impl From<ValidationResult> for ValidationErrors`
(validation.rs lines 42-49). -/
def ValidationResult.toErrors : ValidationResult → ValidationErrors
  | .Passed => ValidationErrors.mk []
  | .Error e => e

/-- Key lookup in the association-list model of `IndexMap`: returns the value
stored under `key`, if any (keys are unique in every map the code builds). -/
def findKind : List (String × ValidationErrorsKind) → String → Option ValidationErrorsKind
  | [], _ => none
  | (k, v) :: rest, key => if k = key then some v else findKind rest key

/-- In-place update of the value stored under `key`, keeping the entry's
position: the model of mutating an occupied `IndexMap` entry. -/
def updateEntry : List (String × ValidationErrorsKind) → String → ValidationErrorsKind →
    List (String × ValidationErrorsKind)
  | [], _, _ => []
  | (k, v) :: rest, key, nv =>
    if k = key then (k, nv) :: rest else (k, v) :: updateEntry rest key nv

/-- Rust `ValidationErrors::new` (validation.rs lines 208-212). -/
def ValidationErrors.new : ValidationErrors := .mk []

/-- Rust `ValidationErrors::contains_key` (validation.rs lines 308-310). -/
def ValidationErrors.contains_key (e : ValidationErrors) (key : String) : Bool :=
  (findKind e.inner key).isSome

/-- Rust `ValidationErrors::is_empty` (validation.rs lines 312-314). -/
def ValidationErrors.is_empty (e : ValidationErrors) : Bool :=
  e.inner.isEmpty

/-- Rust `ValidationErrors::add_nested` (validation.rs lines 271-277):
inserts `errors_kind` under a vacant `nested_name` (appended at the end, as
`IndexMap` does); panics — modelled as `none` — when the name is occupied. -/
def ValidationErrors.add_nested (e : ValidationErrors) (nested_name : String)
    (errors_kind : ValidationErrorsKind) : Option ValidationErrors :=
  if e.contains_key nested_name then none
  else some (.mk (e.inner ++ [(nested_name, errors_kind)]))

/-- Rust `ValidationErrors::add_enum` (validation.rs lines 280-286): inserts
an `Enum` entry under a vacant `enum_name`; panics (`none`) when occupied. -/
def ValidationErrors.add_enum (e : ValidationErrors) (enum_name : String)
    (validation_error : ValidationError) : Option ValidationErrors :=
  if e.contains_key enum_name then none
  else some (.mk (e.inner ++ [(enum_name, .Enum validation_error)]))

/-- Rust `ValidationErrors::add_field` (validation.rs lines 289-299):
`entry(field_name).or_insert_with(Field(vec![]))` then push — a vacant name
gets a fresh one-element `Field` entry appended at the end, an occupied
`Field` entry has the error pushed onto its vector in place, and any other
occupied kind panics (`none`). -/
def ValidationErrors.add_field (e : ValidationErrors) (field_name : String)
    (validation_error : ValidationError) : Option ValidationErrors :=
  match findKind e.inner field_name with
  | none => some (.mk (e.inner ++ [(field_name, .Field [validation_error])]))
  | some (.Field v) => some (.mk (updateEntry e.inner field_name (.Field (v ++ [validation_error]))))
  | some _ => none

/-- Rust `ValidationErrors::merge_field` (validation.rs lines 215-223). -/
def ValidationErrors.merge_field (parent : ValidationResult) (field_name : String)
    (validation_error : ValidationError) : Option ValidationResult :=
  (parent.toErrors.add_field field_name validation_error).map .Error

/-- Rust `ValidationErrors::merge_enum` (validation.rs lines 226-234). -/
def ValidationErrors.merge_enum (parent : ValidationResult) (enum_name : String)
    (validation_error : ValidationError) : Option ValidationResult :=
  (parent.toErrors.add_enum enum_name validation_error).map .Error

/-- Rust `ValidationErrors::merge_struct` (validation.rs lines 237-245). -/
def ValidationErrors.merge_struct (parent : ValidationResult) (struct_name : String)
    (validation_errors : ValidationErrors) : Option ValidationResult :=
  (parent.toErrors.add_nested struct_name (.Struct validation_errors)).map .Error

/-- The `filter_map` closure inside `merge_list` (validation.rs lines
255-258): keeps `(index, errors)` exactly for the failed children. -/
def pickFailed : Nat × ValidationResult → Option (Nat × ValidationErrors)
  | (_, .Passed) => none
  | (index, .Error e) => some (index, e)

/-- Rust `ValidationErrors::merge_list` (validation.rs lines 247-268):
`enumerate().filter_map(pickFailed).collect::<BTreeMap<_,_>>()` — the keys
come out strictly ascending, so the `BTreeMap` is exactly that list. -/
def ValidationErrors.merge_list (parent : ValidationResult) (field_name : String)
    (children : List ValidationResult) : Option ValidationResult :=
  let child_errors := children.enum.filterMap pickFailed
  if child_errors.isEmpty then some parent
  else (parent.toErrors.add_nested field_name (.List child_errors)).map .Error

/-- Rust `ValidationContext` (validation.rs lines 51-54). -/
structure ValidationContext where
  state : ValidationResult

/-- Rust `ValidationContext::new` (validation.rs lines 57-61). -/
def ValidationContext.new : ValidationContext :=
  ⟨ValidationResult.default⟩

/-- Rust `ValidationContext::add_field` (validation.rs lines 63-76): a
present field whose validation fails is merged; an absent field or a passing
validation leaves the context unchanged. -/
def ValidationContext.add_field {T : Type} (s : ValidationContext) (field_name : String)
    (field : Option T) (validation : T → Except ValidationError Unit) :
    Option ValidationContext :=
  match field.map validation with
  | some (.error e) => (ValidationErrors.merge_field s.state field_name e).map ValidationContext.mk
  | _ => some s

/-- Rust `ValidationContext::add_enum` (validation.rs lines 78-91). -/
def ValidationContext.add_enum {T : Type} (s : ValidationContext) (enum_name : String)
    (value : Option T) (validation : T → Except ValidationError Unit) :
    Option ValidationContext :=
  match value.map validation with
  | some (.error e) => (ValidationErrors.merge_enum s.state enum_name e).map ValidationContext.mk
  | _ => some s

/-- Rust `ValidationContext::add_list` (validation.rs lines 93-107): maps
every element through the validator (eagerly: the whole `Vec` of children is
collected before merging), then merges the indexed results. -/
def ValidationContext.add_list {T : Type} (s : ValidationContext) (list_name : String)
    (list : List T) (validation : T → Option ValidationResult) :
    Option ValidationContext :=
  (list.mapM validation).bind fun children =>
    (ValidationErrors.merge_list s.state list_name children).map ValidationContext.mk

/-- Rust `ValidationContext::add_struct` (validation.rs lines 109-122): a
present child whose validator fails is merged as a `Struct` subtree; an
absent child or a passing child leaves the context unchanged. -/
def ValidationContext.add_struct {T : Type} (s : ValidationContext) (struct_name : String)
    (value : Option T) (validation : T → Option ValidationResult) :
    Option ValidationContext :=
  match value with
  | none => some s
  | some x =>
    match validation x with
    | none => none
    | some (.Error validation_errors) =>
      (ValidationErrors.merge_struct s.state struct_name validation_errors).map ValidationContext.mk
    | some .Passed => some s

/-- Rust `impl From<ValidationContext> for ValidationResult`
(validation.rs lines 125-129). -/
def ValidationContext.toResult (s : ValidationContext) : ValidationResult :=
  s.state

/-- Rust `validate_timestamp` (lib.rs lines 5-11): fails when the input
contains the character `a` (the Rust single-character substring test). -/
def validate_timestamp (input : String) : Except ValidationError Unit :=
  if input.data.contains 'a' then .error ⟨"timestamp contains char 'a'"⟩
  else .ok ()

/-- Rust `validate_string` (lib.rs lines 13-19): fails when the input's
UTF-8 byte length exceeds 4. -/
def validate_string (input : String) : Except ValidationError Unit :=
  if input.utf8ByteSize > 4 then .error ⟨"String is too large"⟩
  else .ok ()

/-- Rust `validate_vendor` (lib.rs lines 21-23): always passes. -/
def validate_vendor (_input : String) : Except ValidationError Unit :=
  .ok ()

/-- Rust `ToolKind` (lib.rs lines 32-36). -/
inductive ToolKind where
  | Hammer
  | ScrewDriver
deriving DecidableEq

/-- Rust `validate_toolkind` (lib.rs lines 25-30): rejects `Hammer`. -/
def validate_toolkind (kind : ToolKind) : Except ValidationError Unit :=
  match kind with
  | .Hammer => .error ⟨"Tool must not be a hammer"⟩
  | .ScrewDriver => .ok ()

/-- Rust `Tool` (lib.rs lines 38-44). -/
structure Tool where
  vendor : Option String
  name : String
  lastname : Option String
  kind : ToolKind

/-- Rust `impl Validate for Tool` (lib.rs lines 46-55). -/
def Tool.validate (t : Tool) (_version : SpecVersion) : Option ValidationResult := do
  let c ← ValidationContext.new.add_field "vendor" t.vendor validate_vendor
  let c ← c.add_field "name" (some t.name) validate_string
  let c ← c.add_field "lastname" t.lastname validate_string
  let c ← c.add_enum "kind" (some t.kind) validate_toolkind
  pure c.toResult

/-- Rust `Metadata` (lib.rs lines 57-61). -/
structure Metadata where
  timestamp : Option String
  tools : List Tool

/-- Rust `impl Validate for Metadata` (lib.rs lines 63-81): the tools list
first, then the timestamp with a version-selected predicate (`validate_string`
under `V1_4`, `validate_timestamp` otherwise). -/
def Metadata.validate (m : Metadata) (version : SpecVersion) : Option ValidationResult := do
  let c ← ValidationContext.new.add_list "tools" m.tools fun tool => tool.validate version
  let c ← match version with
    | .V1_4 => c.add_field "timestamp" m.timestamp validate_string
    | _ => c.add_field "timestamp" m.timestamp validate_timestamp
  pure c.toResult

/-- Rust `Bom` (lib.rs lines 83-90): a required `serial_number` and an
optional `meta_data`. -/
structure Bom where
  serial_number : String
  meta_data : Option Metadata

/-- Rust `impl Validate for Bom` (lib.rs lines 93-106). -/
def Bom.validate (b : Bom) (version : SpecVersion) : Option ValidationResult := do
  let c ← ValidationContext.new.add_field "serial_number" (some b.serial_number) validate_string
  let c ← c.add_struct "meta_data" b.meta_data fun metadata => metadata.validate version
  pure c.toResult

/-- Rust `validate_bom` (lib.rs lines 108-111). -/
def validate_bom (version : SpecVersion) (bom : Bom) : Option ValidationResult :=
  bom.validate version

/-- The states a `ValidationContext` can reach from `ValidationContext::new`
by chaining the four builder operations (with arbitrary names, values and
validators), stopping whenever an operation panics. -/
inductive ReachableCtx : ValidationContext → Prop where
  | new : ReachableCtx ValidationContext.new
  | add_field {T : Type} {s s' : ValidationContext} (n : String) (v : Option T)
      (p : T → Except ValidationError Unit) :
      ReachableCtx s → s.add_field n v p = some s' → ReachableCtx s'
  | add_enum {T : Type} {s s' : ValidationContext} (n : String) (v : Option T)
      (p : T → Except ValidationError Unit) :
      ReachableCtx s → s.add_enum n v p = some s' → ReachableCtx s'
  | add_struct {T : Type} {s s' : ValidationContext} (n : String) (v : Option T)
      (f : T → Option ValidationResult) :
      ReachableCtx s → s.add_struct n v f = some s' → ReachableCtx s'
  | add_list {T : Type} {s s' : ValidationContext} (n : String) (xs : List T)
      (f : T → Option ValidationResult) :
      ReachableCtx s → s.add_list n xs f = some s' → ReachableCtx s'

/-! Helper lemmas about the association-list model. -/

@[simp] theorem ValidationErrors.inner_mk (l : List (String × ValidationErrorsKind)) :
    (ValidationErrors.mk l).inner = l := rfl

@[simp] theorem ValidationErrors.mk_inner (e : ValidationErrors) :
    ValidationErrors.mk e.inner = e := by cases e; rfl

theorem contains_key_false_iff (e : ValidationErrors) (n : String) :
    e.contains_key n = false ↔ findKind e.inner n = none := by
  unfold ValidationErrors.contains_key
  cases findKind e.inner n <;> simp

theorem updateEntry_map_fst (l : List (String × ValidationErrorsKind)) (k : String)
    (nv : ValidationErrorsKind) :
    (updateEntry l k nv).map Prod.fst = l.map Prod.fst := by
  induction l with
  | nil => rfl
  | cons p rest ih =>
    obtain ⟨a, b⟩ := p
    unfold updateEntry
    by_cases h : a = k <;> simp [h, ih]

theorem findKind_updateEntry_self (l : List (String × ValidationErrorsKind)) (k : String)
    (nv : ValidationErrorsKind) (w : ValidationErrorsKind)
    (h : findKind l k = some w) :
    findKind (updateEntry l k nv) k = some nv := by
  induction l with
  | nil => simp [findKind] at h
  | cons p rest ih =>
    obtain ⟨a, b⟩ := p
    unfold findKind at h
    unfold updateEntry
    by_cases hak : a = k
    · simp [hak, findKind]
    · simp only [if_neg hak]
      simp only [if_neg hak] at h
      simp [findKind, if_neg hak, ih h]

theorem updateEntry_ne_nil (l : List (String × ValidationErrorsKind)) (k : String)
    (nv : ValidationErrorsKind) (h : l ≠ []) : updateEntry l k nv ≠ [] := by
  cases l with
  | nil => exact absurd rfl h
  | cons p rest =>
    obtain ⟨a, b⟩ := p
    unfold updateEntry
    by_cases hak : a = k <;> simp [hak]

theorem findKind_ne_nil (l : List (String × ValidationErrorsKind)) (k : String)
    (w : ValidationErrorsKind) (h : findKind l k = some w) : l ≠ [] := by
  cases l with
  | nil => simp [findKind] at h
  | cons p rest => simp

theorem is_empty_false_of_add_nested (e e' : ValidationErrors) (n : String)
    (k : ValidationErrorsKind) (h : e.add_nested n k = some e') :
    e'.is_empty = false := by
  unfold ValidationErrors.add_nested at h
  cases hc : e.contains_key n with
  | true => rw [hc] at h; simp at h
  | false =>
    rw [hc] at h
    simp at h
    rw [← h]
    simp [ValidationErrors.is_empty]

theorem is_empty_false_of_add_enum (e e' : ValidationErrors) (n : String)
    (err : ValidationError) (h : e.add_enum n err = some e') :
    e'.is_empty = false := by
  unfold ValidationErrors.add_enum at h
  cases hc : e.contains_key n with
  | true => rw [hc] at h; simp at h
  | false =>
    rw [hc] at h
    simp at h
    rw [← h]
    simp [ValidationErrors.is_empty]

theorem is_empty_false_of_add_field (e e' : ValidationErrors) (n : String)
    (err : ValidationError) (h : e.add_field n err = some e') :
    e'.is_empty = false := by
  unfold ValidationErrors.add_field at h
  cases hf : findKind e.inner n with
  | none =>
    rw [hf] at h
    simp only [Option.some.injEq] at h
    subst h
    simp [ValidationErrors.is_empty]
  | some k =>
    rw [hf] at h
    cases k with
    | Field v =>
      simp only [Option.some.injEq] at h
      subst h
      have hne : e.inner ≠ [] := findKind_ne_nil _ _ _ hf
      have := updateEntry_ne_nil e.inner n (.Field (v ++ [err])) hne
      simp [ValidationErrors.is_empty, List.isEmpty_iff, this]
    | Struct s => simp at h
    | List l => simp at h
    | Enum x => simp at h

/-! Helper lemmas about `enumerate().filter_map(pickFailed)`. -/

theorem enum_eq_enumFrom (l : List ValidationResult) : l.enum = List.enumFrom 0 l := rfl

theorem filterMap_pickFailed_cons_passed (n : Nat) (l : List (Nat × ValidationResult)) :
    List.filterMap pickFailed ((n, ValidationResult.Passed) :: l) =
      List.filterMap pickFailed l := rfl

theorem filterMap_pickFailed_cons_error (n : Nat) (e : ValidationErrors)
    (l : List (Nat × ValidationResult)) :
    List.filterMap pickFailed ((n, ValidationResult.Error e) :: l) =
      (n, e) :: List.filterMap pickFailed l := rfl

theorem filterMap_pickFailed_eq_nil_iff (n : Nat) (cs : List ValidationResult) :
    (List.enumFrom n cs).filterMap pickFailed = [] ↔ ∀ c ∈ cs, c = .Passed := by
  induction cs generalizing n with
  | nil => simp [List.enumFrom]
  | cons c rest ih =>
    cases c with
    | Passed =>
      rw [show List.enumFrom n (ValidationResult.Passed :: rest) =
        (n, ValidationResult.Passed) :: List.enumFrom (n + 1) rest from rfl]
      rw [filterMap_pickFailed_cons_passed]
      rw [ih (n + 1)]
      simp
    | Error e =>
      rw [show List.enumFrom n (ValidationResult.Error e :: rest) =
        (n, ValidationResult.Error e) :: List.enumFrom (n + 1) rest from rfl]
      rw [filterMap_pickFailed_cons_error]
      constructor
      · intro h
        exact absurd h (by simp)
      · intro h
        have := h (.Error e) (by simp)
        cases this

theorem mem_filterMap_pickFailed (n i : Nat) (e : ValidationErrors)
    (cs : List ValidationResult) :
    (i, e) ∈ (List.enumFrom n cs).filterMap pickFailed ↔
      n ≤ i ∧ cs.get? (i - n) = some (.Error e) := by
  induction cs generalizing n with
  | nil => simp [List.enumFrom]
  | cons c rest ih =>
    cases c with
    | Passed =>
      rw [show List.enumFrom n (ValidationResult.Passed :: rest) =
        (n, ValidationResult.Passed) :: List.enumFrom (n + 1) rest from rfl]
      rw [filterMap_pickFailed_cons_passed, ih (n + 1)]
      constructor
      · rintro ⟨h1, h2⟩
        refine ⟨by omega, ?_⟩
        rw [show i - n = (i - (n + 1)) + 1 from by omega, List.get?_cons_succ]
        exact h2
      · rintro ⟨h1, h2⟩
        by_cases hin : i = n
        · subst hin
          simp at h2
        · have h1' : n + 1 ≤ i := by omega
          refine ⟨h1', ?_⟩
          rw [show i - n = (i - (n + 1)) + 1 from by omega, List.get?_cons_succ] at h2
          exact h2
    | Error e0 =>
      rw [show List.enumFrom n (ValidationResult.Error e0 :: rest) =
        (n, ValidationResult.Error e0) :: List.enumFrom (n + 1) rest from rfl]
      rw [filterMap_pickFailed_cons_error, List.mem_cons, ih (n + 1)]
      constructor
      · rintro (h | ⟨h1, h2⟩)
        · rw [Prod.mk.injEq] at h
          obtain ⟨rfl, rfl⟩ := h
          simp
        · refine ⟨by omega, ?_⟩
          rw [show i - n = (i - (n + 1)) + 1 from by omega, List.get?_cons_succ]
          exact h2
      · rintro ⟨h1, h2⟩
        by_cases hin : i = n
        · subst hin
          simp only [Nat.sub_self, List.get?_cons_zero, Option.some.injEq] at h2
          left
          rw [Prod.mk.injEq]
          exact ⟨rfl, by cases h2; rfl⟩
        · right
          rw [show i - n = (i - (n + 1)) + 1 from by omega, List.get?_cons_succ] at h2
          exact ⟨by omega, h2⟩

theorem fst_le_of_mem_filterMap_pickFailed (n : Nat) (cs : List ValidationResult)
    (p : Nat × ValidationErrors) (hp : p ∈ (List.enumFrom n cs).filterMap pickFailed) :
    n ≤ p.1 := by
  obtain ⟨i, e⟩ := p
  exact ((mem_filterMap_pickFailed n i e cs).1 hp).1

theorem chain'_filterMap_pickFailed (n : Nat) (cs : List ValidationResult) :
    List.Chain' (fun a b => a.1 < b.1) ((List.enumFrom n cs).filterMap pickFailed) := by
  induction cs generalizing n with
  | nil => simp [List.enumFrom]
  | cons c rest ih =>
    cases c with
    | Passed =>
      rw [show List.enumFrom n (ValidationResult.Passed :: rest) =
        (n, ValidationResult.Passed) :: List.enumFrom (n + 1) rest from rfl]
      rw [filterMap_pickFailed_cons_passed]
      exact ih (n + 1)
    | Error e0 =>
      rw [show List.enumFrom n (ValidationResult.Error e0 :: rest) =
        (n, ValidationResult.Error e0) :: List.enumFrom (n + 1) rest from rfl]
      rw [filterMap_pickFailed_cons_error]
      refine List.chain'_cons'.2 ⟨?_, ih (n + 1)⟩
      intro q hq
      have hmem : q ∈ (List.enumFrom (n + 1) rest).filterMap pickFailed :=
        List.mem_of_mem_head? hq
      have := fst_le_of_mem_filterMap_pickFailed (n + 1) rest q hmem
      omega

/-! Helper lemmas about the context builder. -/

theorem add_field_skip_or_pass {T : Type} (s : ValidationContext) (n : String)
    (v : Option T) (p : T → Except ValidationError Unit)
    (h : ∀ x, v = some x → p x = .ok ()) :
    s.add_field n v p = some s := by
  cases v with
  | none => rfl
  | some x => simp [ValidationContext.add_field, h x rfl]

theorem add_enum_skip_or_pass {T : Type} (s : ValidationContext) (n : String)
    (v : Option T) (p : T → Except ValidationError Unit)
    (h : ∀ x, v = some x → p x = .ok ()) :
    s.add_enum n v p = some s := by
  cases v with
  | none => rfl
  | some x => simp [ValidationContext.add_enum, h x rfl]

theorem add_field_fail_on_passed {T : Type} (n : String) (x : T)
    (p : T → Except ValidationError Unit) (err : ValidationError)
    (h : p x = .error err) :
    (ValidationContext.mk .Passed).add_field n (some x) p =
      some ⟨.Error (.mk [(n, .Field [err])])⟩ := by
  simp [ValidationContext.add_field, h, ValidationErrors.merge_field,
    ValidationResult.toErrors, ValidationErrors.add_field, findKind]

theorem add_enum_fail_on_passed {T : Type} (n : String) (x : T)
    (p : T → Except ValidationError Unit) (err : ValidationError)
    (h : p x = .error err) :
    (ValidationContext.mk .Passed).add_enum n (some x) p =
      some ⟨.Error (.mk [(n, .Enum err)])⟩ := by
  simp [ValidationContext.add_enum, h, ValidationErrors.merge_enum,
    ValidationResult.toErrors, ValidationErrors.add_enum,
    ValidationErrors.contains_key, findKind]

theorem add_struct_fail_on_passed {T : Type} (n : String) (x : T)
    (f : T → Option ValidationResult) (es : ValidationErrors)
    (h : f x = some (.Error es)) :
    (ValidationContext.mk .Passed).add_struct n (some x) f =
      some ⟨.Error (.mk [(n, .Struct es)])⟩ := by
  simp [ValidationContext.add_struct, h, ValidationErrors.merge_struct,
    ValidationResult.toErrors, ValidationErrors.add_nested,
    ValidationErrors.contains_key, findKind]

theorem mapM_validate_all_passed (tools : List Tool) (version : SpecVersion)
    (h : ∀ t ∈ tools, t.validate version = some .Passed) :
    tools.mapM (fun t => t.validate version) =
      some (tools.map fun _ => ValidationResult.Passed) := by
  induction tools with
  | nil => rfl
  | cons t ts ih =>
    rw [List.mapM_cons, h t (by simp), ih (fun u hu => h u (by simp [hu]))]
    rfl

theorem merge_list_all_passed (parent : ValidationResult) (n : String)
    (children : List ValidationResult) (h : ∀ c ∈ children, c = .Passed) :
    ValidationErrors.merge_list parent n children = some parent := by
  unfold ValidationErrors.merge_list
  rw [enum_eq_enumFrom, (filterMap_pickFailed_eq_nil_iff 0 children).2 h]
  rfl

theorem add_list_all_passed {T : Type} (s : ValidationContext) (n : String)
    (xs : List T) (f : T → Option ValidationResult)
    (children : List ValidationResult) (hm : xs.mapM f = some children)
    (h : ∀ c ∈ children, c = .Passed) :
    s.add_list n xs f = some s := by
  unfold ValidationContext.add_list
  rw [hm, Option.some_bind, merge_list_all_passed s.state n children h]
  rfl

theorem tool_validate_hammer_only (t : Tool) (version : SpecVersion)
    (hn : t.name.utf8ByteSize ≤ 4)
    (hl : ∀ s, t.lastname = some s → s.utf8ByteSize ≤ 4)
    (hk : t.kind = .Hammer) :
    t.validate version =
      some (.Error (.mk [("kind", .Enum ⟨"Tool must not be a hammer"⟩)])) := by
  have h1 : ValidationContext.new.add_field "vendor" t.vendor validate_vendor =
      some ValidationContext.new :=
    add_field_skip_or_pass _ _ _ _ (fun x _ => rfl)
  have h2 : ValidationContext.new.add_field "name" (some t.name) validate_string =
      some ValidationContext.new :=
    add_field_skip_or_pass _ _ _ _ (fun x hx => by
      cases hx
      unfold validate_string
      rw [if_neg (by omega)])
  have h3 : ValidationContext.new.add_field "lastname" t.lastname validate_string =
      some ValidationContext.new :=
    add_field_skip_or_pass _ _ _ _ (fun x hx => by
      unfold validate_string
      rw [if_neg (by have := hl x hx; omega)])
  have h4 : ValidationContext.new.add_enum "kind" (some t.kind) validate_toolkind =
      some ⟨.Error (.mk [("kind", .Enum ⟨"Tool must not be a hammer"⟩)])⟩ := by
    rw [hk]
    exact add_enum_fail_on_passed _ _ _ _ rfl
  unfold Tool.validate
  simp only [Option.bind_eq_bind, h1, h2, h3, h4, Option.some_bind]
  rfl

/-- C1: a `Bom` whose serial number has byte length 4, whose metadata carries
timestamp `"2024-01-02"` and exactly two tools — the first passing every
check, the second failing only because its kind is `Hammer` — validates under
`V1_3` to a `Failed` result whose tree has exactly the single path
`meta_data` (Struct) → `tools` (List) → index 1 → `kind` (Enum) with the
single message "Tool must not be a hammer", and no other entries anywhere. -/
theorem C1_concrete_bom_scenario (serial : String) (tool1 tool2 : Tool)
    (hs : serial.utf8ByteSize = 4)
    (h1 : tool1.validate .V1_3 = some .Passed)
    (hn : tool2.name.utf8ByteSize ≤ 4)
    (hl : ∀ s, tool2.lastname = some s → s.utf8ByteSize ≤ 4)
    (hk : tool2.kind = .Hammer) :
    (Bom.mk serial (some (Metadata.mk (some "2024-01-02") [tool1, tool2]))).validate .V1_3 =
      some (.Error (.mk [("meta_data", .Struct (.mk [("tools",
        .List [(1, .mk [("kind", .Enum ⟨"Tool must not be a hammer"⟩)])])]))])) := by
  have h2 := tool_validate_hammer_only tool2 .V1_3 hn hl hk
  have hmapM : List.mapM (fun tool => Tool.validate tool .V1_3) [tool1, tool2] =
      some [.Passed, .Error (.mk [("kind", .Enum ⟨"Tool must not be a hammer"⟩)])] := by
    simp only [List.mapM_cons, List.mapM_nil, h1, h2, Option.bind_eq_bind, Option.some_bind]
    rfl
  have hmd : (Metadata.mk (some "2024-01-02") [tool1, tool2]).validate .V1_3 =
      some (.Error (.mk [("tools",
        .List [(1, .mk [("kind", .Enum ⟨"Tool must not be a hammer"⟩)])])])) := by
    unfold Metadata.validate ValidationContext.add_list
    rw [hmapM]
    rfl
  have hserial : ValidationContext.new.add_field "serial_number" (some serial) validate_string =
      some ValidationContext.new :=
    add_field_skip_or_pass _ _ _ _ (fun x hx => by
      cases hx
      unfold validate_string
      rw [if_neg (by omega)])
  have hstruct : ValidationContext.new.add_struct "meta_data"
      (some (Metadata.mk (some "2024-01-02") [tool1, tool2]))
      (fun metadata => metadata.validate .V1_3) =
      some ⟨.Error (.mk [("meta_data", .Struct (.mk [("tools",
        .List [(1, .mk [("kind", .Enum ⟨"Tool must not be a hammer"⟩)])])]))])⟩ :=
    add_struct_fail_on_passed _ _ _ _ hmd
  unfold Bom.validate
  simp only [Option.bind_eq_bind, hserial, hstruct, Option.some_bind]
  rfl

/-- Witness for C1, instantiated at the repository's own test document. -/
theorem C1_concrete_bom_scenario_witness :
    (Bom.mk "1234" (some (Metadata.mk (some "2024-01-02")
      [Tool.mk (some "Vendor") "delv" (some "hill") .ScrewDriver,
       Tool.mk (some "Vendor") "dig" (some "roe") .Hammer]))).validate .V1_3 =
      some (.Error (.mk [("meta_data", .Struct (.mk [("tools",
        .List [(1, .mk [("kind", .Enum ⟨"Tool must not be a hammer"⟩)])])]))])) :=
  C1_concrete_bom_scenario "1234"
    (Tool.mk (some "Vendor") "delv" (some "hill") .ScrewDriver)
    (Tool.mk (some "Vendor") "dig" (some "roe") .Hammer)
    (by decide) rfl (by decide) (fun s hs => by cases hs; decide) rfl

/-- C7: for a metadata block whose timestamp is longer than 4 bytes and
contains no letter `a`, and whose tools all pass, validation fails under
`V1_4` on the `timestamp` field (predicate `validate_string`) but passes
under `V1_3` and `V1_5` (predicate `validate_timestamp`): the same document
validates differently because a different predicate is selected per version. -/
theorem C7_version_sensitivity (ts : String) (tools : List Tool)
    (hlen : ts.utf8ByteSize > 4)
    (ha : ts.data.contains 'a' = false)
    (htools : ∀ v : SpecVersion, ∀ t ∈ tools, t.validate v = some .Passed) :
    (Metadata.mk (some ts) tools).validate .V1_4 =
      some (.Error (.mk [("timestamp", .Field [⟨"String is too large"⟩])])) ∧
    (Metadata.mk (some ts) tools).validate .V1_3 = some .Passed ∧
    (Metadata.mk (some ts) tools).validate .V1_5 = some .Passed := by
  have hall : ∀ v : SpecVersion, ValidationContext.new.add_list "tools" tools
      (fun tool => tool.validate v) = some ValidationContext.new := by
    intro v
    refine add_list_all_passed _ _ _ _ _ (mapM_validate_all_passed tools v (htools v)) ?_
    intro c hc
    obtain ⟨t, -, h⟩ := List.mem_map.1 hc
    exact h.symm
  have hfail : validate_string ts = .error ⟨"String is too large"⟩ := by
    unfold validate_string
    rw [if_pos hlen]
  have hf : ValidationContext.new.add_field "timestamp" (some ts) validate_string =
      some ⟨.Error (.mk [("timestamp", .Field [⟨"String is too large"⟩])])⟩ :=
    add_field_fail_on_passed _ _ _ _ hfail
  have hok : ValidationContext.new.add_field "timestamp" (some ts) validate_timestamp =
      some ValidationContext.new :=
    add_field_skip_or_pass _ _ _ _ (fun x hx => by
      cases hx
      unfold validate_timestamp
      have hno : ¬ (ts.data.contains 'a' = true) := by rw [ha]; simp
      rw [if_neg hno])
  refine ⟨?_, ?_, ?_⟩
  · unfold Metadata.validate
    simp only [Option.bind_eq_bind, hall .V1_4, Option.some_bind, hf]
    rfl
  · unfold Metadata.validate
    simp only [Option.bind_eq_bind, hall .V1_3, Option.some_bind, hok]
    rfl
  · unfold Metadata.validate
    simp only [Option.bind_eq_bind, hall .V1_5, Option.some_bind, hok]
    rfl

/-- Witness for C7 at timestamp `"2024-01-02"` with an empty tools list. -/
theorem C7_version_sensitivity_witness :
    (Metadata.mk (some "2024-01-02") ([] : List Tool)).validate .V1_4 =
      some (.Error (.mk [("timestamp", .Field [⟨"String is too large"⟩])])) ∧
    (Metadata.mk (some "2024-01-02") ([] : List Tool)).validate .V1_3 = some .Passed ∧
    (Metadata.mk (some "2024-01-02") ([] : List Tool)).validate .V1_5 = some .Passed :=
  C7_version_sensitivity "2024-01-02" [] (by decide) (by decide)
    (fun v t ht => absurd ht (by simp))

/-- C2: `merge_list` leaves the parent unchanged when every child passed;
otherwise (given the name is vacant, as the uniqueness contract requires) it
turns the parent into `Failed` with one `List` entry under the name holding
exactly the original indices of the failing children mapped to their
subtrees, keys strictly ascending; and `add_list` runs the element validator
over the whole list (the full result list feeds `merge_list`, with no
short-circuit on a failing element). -/
theorem C2_merge_list_semantics (parent : ValidationResult) (name : String)
    (children : List ValidationResult) :
    ((∀ c ∈ children, c = .Passed) →
      ValidationErrors.merge_list parent name children = some parent) ∧
    ((¬ ∀ c ∈ children, c = .Passed) → parent.toErrors.contains_key name = false →
      ValidationErrors.merge_list parent name children =
        some (.Error (.mk (parent.toErrors.inner ++
          [(name, .List (children.enum.filterMap pickFailed))])))) ∧
    (∀ (i : Nat) (e : ValidationErrors),
      (i, e) ∈ children.enum.filterMap pickFailed ↔
        children.get? i = some (.Error e)) ∧
    List.Chain' (fun a b => a.1 < b.1) (children.enum.filterMap pickFailed) ∧
    (∀ {T : Type} (s : ValidationContext) (xs : List T) (f : T → Option ValidationResult),
      xs.mapM f = some children →
        s.add_list name xs f =
          (ValidationErrors.merge_list s.state name children).map ValidationContext.mk) := by
  refine ⟨merge_list_all_passed parent name children, ?_, ?_, ?_, ?_⟩
  · intro h hvac
    have hne : children.enum.filterMap pickFailed ≠ [] := by
      rw [enum_eq_enumFrom]
      intro hnil
      exact h ((filterMap_pickFailed_eq_nil_iff 0 children).1 hnil)
    have hie : (children.enum.filterMap pickFailed).isEmpty = false := by
      cases hfm : children.enum.filterMap pickFailed with
      | nil => exact absurd hfm hne
      | cons a l => rfl
    unfold ValidationErrors.merge_list
    simp only [hie, Bool.false_eq_true, if_false]
    unfold ValidationErrors.add_nested
    rw [hvac]
    rfl
  · intro i e
    rw [enum_eq_enumFrom, mem_filterMap_pickFailed 0 i e children]
    simp
  · rw [enum_eq_enumFrom]
    exact chain'_filterMap_pickFailed 0 children
  · intro T s xs f hm
    unfold ValidationContext.add_list
    rw [hm, Option.some_bind]

/-- Witness for C2: children failing at the original indices 0 and 2 produce
a `List` entry keeping exactly those indices with their own subtrees. -/
theorem C2_merge_list_semantics_witness :
    ValidationErrors.merge_list .Passed "items"
      [.Error (.mk [("a", .Field [⟨"m1"⟩])]), .Passed,
       .Error (.mk [("b", .Field [⟨"m2"⟩])])] =
      some (.Error (.mk [("items", .List
        [(0, .mk [("a", .Field [⟨"m1"⟩])]), (2, .mk [("b", .Field [⟨"m2"⟩])])])])) :=
  (C2_merge_list_semantics .Passed "items"
      [.Error (.mk [("a", .Field [⟨"m1"⟩])]), .Passed,
       .Error (.mk [("b", .Field [⟨"m2"⟩])])]).2.1
    (fun h => ValidationResult.noConfusion
      (h (.Error (.mk [("a", .Field [⟨"m1"⟩])])) (by simp)))
    rfl

/-- C3 counterexample: `Error` over the empty tree is constructible and the
public observations do not collapse it to `Passed` — `passed()` is `false`
and `has_errors()` is `true` on it even though its tree is empty, so the two
states are observably distinct, contrary to the claim. -/
theorem C3_passed_empty_distinct_counterexample :
    ValidationErrors.new.is_empty = true ∧
    (ValidationResult.Error ValidationErrors.new).passed = false ∧
    (ValidationResult.Error ValidationErrors.new).has_errors = true ∧
    ValidationResult.Passed.passed = true ∧
    ValidationResult.Passed.has_errors = false :=
  ⟨rfl, rfl, rfl, rfl, rfl⟩

/-- C3 amended: the observations `passed()`, `has_errors()` and `errors()`
report the constructor, not tree emptiness, so `Passed` and
`Error(empty tree)` are distinct observable states; the two coincide only
under the merge algebra's input conversion, which sends both to the empty
`ValidationErrors`. -/
theorem C3_passed_observes_constructor :
    (∀ e : ValidationErrors, (ValidationResult.Error e).passed = false ∧
      (ValidationResult.Error e).has_errors = true ∧
      (ValidationResult.Error e).errors = some e) ∧
    ValidationResult.Passed.passed = true ∧
    ValidationResult.Passed.has_errors = false ∧
    ValidationResult.Passed.errors = none ∧
    (ValidationResult.Error ValidationErrors.new).toErrors =
      ValidationResult.Passed.toErrors :=
  ⟨fun _ => ⟨rfl, rfl, rfl⟩, rfl, rfl, rfl, rfl⟩

/-- C4: inserting under an occupied name is the fatal branch (modelled as
`none`), never a silent overwrite: `add_nested` and `add_enum` fail on any
occupied name, `add_field` fails exactly when the name holds a non-`Field`
kind; on a vacant name, each insertion succeeds, so the fatal branch is
unreachable there. -/
theorem C4_uniqueness_contract (e : ValidationErrors) (n : String)
    (err : ValidationError) (k : ValidationErrorsKind) :
    (e.contains_key n = true →
      e.add_nested n k = none ∧ e.add_enum n err = none) ∧
    (∀ k0, findKind e.inner n = some k0 → (∀ v, k0 ≠ .Field v) →
      e.add_field n err = none) ∧
    (e.contains_key n = false →
      (∃ e', e.add_nested n k = some e') ∧
      (∃ e', e.add_enum n err = some e') ∧
      (∃ e', e.add_field n err = some e')) := by
  refine ⟨?_, ?_, ?_⟩
  · intro h
    constructor
    · unfold ValidationErrors.add_nested
      rw [h]
      rfl
    · unfold ValidationErrors.add_enum
      rw [h]
      rfl
  · intro k0 hf hnf
    unfold ValidationErrors.add_field
    rw [hf]
    cases k0 with
    | Field v => exact absurd rfl (hnf v)
    | Struct s => rfl
    | List l => rfl
    | Enum x => rfl
  · intro h
    have hfk : findKind e.inner n = none := (contains_key_false_iff e n).1 h
    refine ⟨⟨.mk (e.inner ++ [(n, k)]), ?_⟩,
      ⟨.mk (e.inner ++ [(n, .Enum err)]), ?_⟩,
      ⟨.mk (e.inner ++ [(n, .Field [err])]), ?_⟩⟩
    · unfold ValidationErrors.add_nested
      rw [h]
      rfl
    · unfold ValidationErrors.add_enum
      rw [h]
      rfl
    · unfold ValidationErrors.add_field
      rw [hfk]

/-- Witness for C4: on a node already holding `"x"` as an `Enum` entry, all
three insertions under `"x"` hit the fatal branch. -/
theorem C4_uniqueness_contract_witness :
    (ValidationErrors.mk [("x", .Enum ⟨"m"⟩)]).add_nested "x" (.Enum ⟨"m"⟩) = none ∧
    (ValidationErrors.mk [("x", .Enum ⟨"m"⟩)]).add_enum "x" ⟨"m"⟩ = none ∧
    (ValidationErrors.mk [("x", .Enum ⟨"m"⟩)]).add_field "x" ⟨"m"⟩ = none :=
  ⟨((C4_uniqueness_contract (.mk [("x", .Enum ⟨"m"⟩)]) "x" ⟨"m"⟩ (.Enum ⟨"m"⟩)).1
      (by decide)).1,
   ((C4_uniqueness_contract (.mk [("x", .Enum ⟨"m"⟩)]) "x" ⟨"m"⟩ (.Enum ⟨"m"⟩)).1
      (by decide)).2,
   (C4_uniqueness_contract (.mk [("x", .Enum ⟨"m"⟩)]) "x" ⟨"m"⟩ (.Enum ⟨"m"⟩)).2.1
      (.Enum ⟨"m"⟩) rfl (fun v hv => ValidationErrorsKind.noConfusion hv)⟩

/-- C5: `Passed` is the identity of the merge algebra for `add_struct`: a
child validating to `Passed` leaves the parent context unchanged and adds no
entry, while a child validating to `Failed(es)` (name vacant) makes the
parent `Failed` and appends exactly one `Struct` entry under the name whose
nested tree is `es` itself, unflattened. -/
theorem C5_passed_identity_merge_struct {T : Type} (s : ValidationContext) (n : String)
    (x : T) (f : T → Option ValidationResult) (es : ValidationErrors) :
    (f x = some .Passed → s.add_struct n (some x) f = some s) ∧
    (s.state.toErrors.contains_key n = false →
      ValidationErrors.merge_struct s.state n es =
        some (.Error (.mk (s.state.toErrors.inner ++ [(n, .Struct es)])))) ∧
    (f x = some (.Error es) → s.state.toErrors.contains_key n = false →
      s.add_struct n (some x) f =
        some ⟨.Error (.mk (s.state.toErrors.inner ++ [(n, .Struct es)]))⟩) := by
  have hms : s.state.toErrors.contains_key n = false →
      ValidationErrors.merge_struct s.state n es =
        some (.Error (.mk (s.state.toErrors.inner ++ [(n, .Struct es)]))) := by
    intro hvac
    unfold ValidationErrors.merge_struct ValidationErrors.add_nested
    rw [hvac]
    rfl
  refine ⟨?_, hms, ?_⟩
  · intro hf
    unfold ValidationContext.add_struct
    simp only [hf]
  · intro hf hvac
    unfold ValidationContext.add_struct
    simp only [hf, hms hvac, Option.map_some']

/-- Witness for C5: a passing child leaves the context untouched; a failing
child attaches its tree under the name as a single `Struct` entry. -/
theorem C5_passed_identity_merge_struct_witness :
    (ValidationContext.mk .Passed).add_struct "child" (some ())
      (fun _ => some .Passed) = some (ValidationContext.mk .Passed) ∧
    (ValidationContext.mk .Passed).add_struct "child" (some ())
      (fun _ => some (.Error (.mk [("g", .Enum ⟨"m"⟩)]))) =
      some ⟨.Error (.mk [("child", .Struct (.mk [("g", .Enum ⟨"m"⟩)]))])⟩ :=
  ⟨(C5_passed_identity_merge_struct (.mk .Passed) "child" ()
      (fun _ => some .Passed) (.mk [])).1 rfl,
   (C5_passed_identity_merge_struct (.mk .Passed) "child" ()
      (fun _ => some (.Error (.mk [("g", .Enum ⟨"m"⟩)])))
      (.mk [("g", .Enum ⟨"m"⟩)])).2.2 rfl rfl⟩

/-- C6: an absent (`none`) optional value makes `add_field`, `add_enum` and
`add_struct` leave the context unchanged, for every predicate and child
validator — the predicate is never consulted (the result is `some s`
uniformly in it). -/
theorem C6_absent_optional_skipped {T : Type} (s : ValidationContext) (n : String)
    (p : T → Except ValidationError Unit) (f : T → Option ValidationResult) :
    s.add_field n (none : Option T) p = some s ∧
    s.add_enum n (none : Option T) p = some s ∧
    s.add_struct n (none : Option T) f = some s :=
  ⟨rfl, rfl, rfl⟩

/-- C8: the first `add_field` under a vacant name creates a `Field` entry
with the one-element sequence (appended at the end of the node); a later
`add_field` under a name holding a `Field` entry appends the error at the end
of that entry's existing sequence, in place, preserving all other entries and
the key order; and the fatal branch is hit exactly when the name holds a
non-`Field` kind. -/
theorem C8_add_field_append_semantics (e : ValidationErrors) (n : String)
    (err : ValidationError) :
    (findKind e.inner n = none →
      e.add_field n err = some (.mk (e.inner ++ [(n, .Field [err])]))) ∧
    (∀ v, findKind e.inner n = some (.Field v) →
      ∃ e', e.add_field n err = some e' ∧
        findKind e'.inner n = some (.Field (v ++ [err])) ∧
        e'.inner.map Prod.fst = e.inner.map Prod.fst) ∧
    (e.add_field n err = none ↔
      ∃ k, findKind e.inner n = some k ∧ ∀ v, k ≠ ValidationErrorsKind.Field v) := by
  refine ⟨?_, ?_, ?_, ?_⟩
  · intro h
    unfold ValidationErrors.add_field
    rw [h]
  · intro v h
    unfold ValidationErrors.add_field
    rw [h]
    exact ⟨_, rfl, findKind_updateEntry_self _ _ _ _ h, updateEntry_map_fst _ _ _⟩
  · intro h
    unfold ValidationErrors.add_field at h
    cases hf : findKind e.inner n with
    | none => rw [hf] at h; simp at h
    | some k0 =>
      rw [hf] at h
      cases k0 with
      | Field v => simp at h
      | Struct st => exact ⟨.Struct st, rfl, fun v hv => ValidationErrorsKind.noConfusion hv⟩
      | List l => exact ⟨.List l, rfl, fun v hv => ValidationErrorsKind.noConfusion hv⟩
      | Enum x => exact ⟨.Enum x, rfl, fun v hv => ValidationErrorsKind.noConfusion hv⟩
  · rintro ⟨k0, hf, hnf⟩
    unfold ValidationErrors.add_field
    rw [hf]
    cases k0 with
    | Field v => exact absurd rfl (hnf v)
    | Struct st => rfl
    | List l => rfl
    | Enum x => rfl

/-- Witness for C8: pushing a second error under an occupied `Field` name
appends it after the first, keeping the entry in place. -/
theorem C8_add_field_append_semantics_witness :
    ∃ e', (ValidationErrors.mk [("x", .Field [⟨"m1"⟩])]).add_field "x" ⟨"m2"⟩ = some e' ∧
      findKind e'.inner "x" = some (.Field [⟨"m1"⟩, ⟨"m2"⟩]) ∧
      e'.inner.map Prod.fst =
        (ValidationErrors.mk [("x", .Field [⟨"m1"⟩])]).inner.map Prod.fst :=
  (C8_add_field_append_semantics (.mk [("x", .Field [⟨"m1"⟩])]) "x" ⟨"m2"⟩).2.1
    [⟨"m1"⟩] rfl

/-- C9: entries sit in first-insertion order — every successful insertion of
a fresh name appends at the end, leaving the already-present entries exactly
as they were, and `add_field` never changes the sequence of keys except by
appending the new name. -/
theorem C9_insertion_order_preserved (e : ValidationErrors) (n : String)
    (err : ValidationError) (k : ValidationErrorsKind) :
    (e.contains_key n = false →
      e.add_nested n k = some (.mk (e.inner ++ [(n, k)])) ∧
      e.add_enum n err = some (.mk (e.inner ++ [(n, .Enum err)])) ∧
      e.add_field n err = some (.mk (e.inner ++ [(n, .Field [err])]))) ∧
    (∀ e', e.add_field n err = some e' →
      e'.inner.map Prod.fst = e.inner.map Prod.fst ∨
      e'.inner.map Prod.fst = e.inner.map Prod.fst ++ [n]) := by
  constructor
  · intro h
    have hfk : findKind e.inner n = none := (contains_key_false_iff e n).1 h
    refine ⟨?_, ?_, ?_⟩
    · unfold ValidationErrors.add_nested
      rw [h]
      rfl
    · unfold ValidationErrors.add_enum
      rw [h]
      rfl
    · unfold ValidationErrors.add_field
      rw [hfk]
  · intro e' h
    unfold ValidationErrors.add_field at h
    cases hf : findKind e.inner n with
    | none =>
      rw [hf] at h
      simp only [Option.some.injEq] at h
      right
      rw [← h]
      simp
    | some k0 =>
      rw [hf] at h
      cases k0 with
      | Field v =>
        simp only [Option.some.injEq] at h
        left
        rw [← h]
        simp [updateEntry_map_fst]
      | Struct st => simp at h
      | List l => simp at h
      | Enum x => simp at h

/-- Witness for C9: inserting the fresh name `"b"` appends after the existing
entry `"a"`, which is left unmodified. -/
theorem C9_insertion_order_preserved_witness :
    (ValidationErrors.mk [("a", .Enum ⟨"m"⟩)]).add_nested "b" (.Field []) =
      some (.mk [("a", .Enum ⟨"m"⟩), ("b", .Field [])]) ∧
    (ValidationErrors.mk [("a", .Enum ⟨"m"⟩)]).add_enum "b" ⟨"m2"⟩ =
      some (.mk [("a", .Enum ⟨"m"⟩), ("b", .Enum ⟨"m2"⟩)]) ∧
    (ValidationErrors.mk [("a", .Enum ⟨"m"⟩)]).add_field "b" ⟨"m2"⟩ =
      some (.mk [("a", .Enum ⟨"m"⟩), ("b", .Field [⟨"m2"⟩])]) :=
  (C9_insertion_order_preserved (.mk [("a", .Enum ⟨"m"⟩)]) "b" ⟨"m2"⟩ (.Field [])).1
    (by decide)

theorem good_merge_field {r r' : ValidationResult} {n : String} {er : ValidationError}
    (h : ValidationErrors.merge_field r n er = some r') :
    ∃ e, r' = .Error e ∧ e.is_empty = false := by
  unfold ValidationErrors.merge_field at h
  cases haf : r.toErrors.add_field n er with
  | none => rw [haf] at h; simp at h
  | some e2 =>
    rw [haf] at h
    simp only [Option.map_some', Option.some.injEq] at h
    exact ⟨e2, h.symm, is_empty_false_of_add_field _ _ _ _ haf⟩

theorem good_merge_enum {r r' : ValidationResult} {n : String} {er : ValidationError}
    (h : ValidationErrors.merge_enum r n er = some r') :
    ∃ e, r' = .Error e ∧ e.is_empty = false := by
  unfold ValidationErrors.merge_enum at h
  cases haf : r.toErrors.add_enum n er with
  | none => rw [haf] at h; simp at h
  | some e2 =>
    rw [haf] at h
    simp only [Option.map_some', Option.some.injEq] at h
    exact ⟨e2, h.symm, is_empty_false_of_add_enum _ _ _ _ haf⟩

theorem good_merge_struct {r r' : ValidationResult} {n : String} {es : ValidationErrors}
    (h : ValidationErrors.merge_struct r n es = some r') :
    ∃ e, r' = .Error e ∧ e.is_empty = false := by
  unfold ValidationErrors.merge_struct at h
  cases haf : r.toErrors.add_nested n (.Struct es) with
  | none => rw [haf] at h; simp at h
  | some e2 =>
    rw [haf] at h
    simp only [Option.map_some', Option.some.injEq] at h
    exact ⟨e2, h.symm, is_empty_false_of_add_nested _ _ _ _ haf⟩

def GoodState (c : ValidationContext) : Prop :=
  c.state = .Passed ∨ ∃ e, c.state = .Error e ∧ e.is_empty = false

theorem good_add_field {T : Type} {s s' : ValidationContext} {n : String}
    {v : Option T} {p : T → Except ValidationError Unit}
    (heq : s.add_field n v p = some s') (hg : GoodState s) : GoodState s' := by
  unfold ValidationContext.add_field at heq
  cases hvp : v.map p with
  | none =>
    rw [hvp] at heq
    simp only [Option.some.injEq] at heq
    rw [← heq]
    exact hg
  | some r =>
    cases r with
    | ok u =>
      rw [hvp] at heq
      simp only [Option.some.injEq] at heq
      rw [← heq]
      exact hg
    | error er =>
      rw [hvp] at heq
      dsimp only at heq
      cases hmf : ValidationErrors.merge_field s.state n er with
      | none => rw [hmf] at heq; simp at heq
      | some r' =>
        rw [hmf] at heq
        simp only [Option.map_some', Option.some.injEq] at heq
        obtain ⟨e2, he2, hne⟩ := good_merge_field hmf
        right
        exact ⟨e2, by rw [← heq, he2], hne⟩

theorem good_add_enum {T : Type} {s s' : ValidationContext} {n : String}
    {v : Option T} {p : T → Except ValidationError Unit}
    (heq : s.add_enum n v p = some s') (hg : GoodState s) : GoodState s' := by
  unfold ValidationContext.add_enum at heq
  cases hvp : v.map p with
  | none =>
    rw [hvp] at heq
    simp only [Option.some.injEq] at heq
    rw [← heq]
    exact hg
  | some r =>
    cases r with
    | ok u =>
      rw [hvp] at heq
      simp only [Option.some.injEq] at heq
      rw [← heq]
      exact hg
    | error er =>
      rw [hvp] at heq
      dsimp only at heq
      cases hmf : ValidationErrors.merge_enum s.state n er with
      | none => rw [hmf] at heq; simp at heq
      | some r' =>
        rw [hmf] at heq
        simp only [Option.map_some', Option.some.injEq] at heq
        obtain ⟨e2, he2, hne⟩ := good_merge_enum hmf
        right
        exact ⟨e2, by rw [← heq, he2], hne⟩

theorem good_add_struct {T : Type} {s s' : ValidationContext} {n : String}
    {v : Option T} {f : T → Option ValidationResult}
    (heq : s.add_struct n v f = some s') (hg : GoodState s) : GoodState s' := by
  unfold ValidationContext.add_struct at heq
  cases v with
  | none =>
    simp only [Option.some.injEq] at heq
    rw [← heq]
    exact hg
  | some x =>
    dsimp only at heq
    cases hfx : f x with
    | none => rw [hfx] at heq; simp at heq
    | some r =>
      cases r with
      | Passed =>
        rw [hfx] at heq
        simp only [Option.some.injEq] at heq
        rw [← heq]
        exact hg
      | Error es =>
        rw [hfx] at heq
        dsimp only at heq
        cases hms : ValidationErrors.merge_struct s.state n es with
        | none => rw [hms] at heq; simp at heq
        | some r' =>
          rw [hms] at heq
          simp only [Option.map_some', Option.some.injEq] at heq
          obtain ⟨e2, he2, hne⟩ := good_merge_struct hms
          right
          exact ⟨e2, by rw [← heq, he2], hne⟩

theorem good_add_list {T : Type} {s s' : ValidationContext} {n : String}
    {xs : List T} {f : T → Option ValidationResult}
    (heq : s.add_list n xs f = some s') (hg : GoodState s) : GoodState s' := by
  unfold ValidationContext.add_list at heq
  cases hm : xs.mapM f with
  | none => rw [hm] at heq; simp at heq
  | some children =>
    rw [hm, Option.some_bind] at heq
    unfold ValidationErrors.merge_list at heq
    by_cases hie : (children.enum.filterMap pickFailed).isEmpty = true
    · simp only [hie, if_true, Option.map_some', Option.some.injEq] at heq
      rw [← heq]
      exact hg
    · simp only [hie, if_false] at heq
      cases han : s.state.toErrors.add_nested n
          (.List (children.enum.filterMap pickFailed)) with
      | none => rw [han] at heq; simp at heq
      | some e2 =>
        rw [han] at heq
        simp only [Bool.false_eq_true, if_false, Option.map_some',
          Option.some.injEq] at heq
        right
        exact ⟨e2, by rw [← heq], is_empty_false_of_add_nested _ _ _ _ han⟩

/-- C10: every context reachable from `ValidationContext::new` by chaining
the builder operations has a state that is either `Passed` or `Error` over a
non-empty tree — the builder never yields an `Error` whose tree is empty, so
`passed()` coincides with tree-emptiness for all builder-produced results. -/
theorem C10_builder_no_empty_error (c : ValidationContext) (h : ReachableCtx c) :
    c.state = .Passed ∨ ∃ e, c.state = .Error e ∧ e.is_empty = false := by
  induction h with
  | new => exact Or.inl rfl
  | add_field n v p _ heq ih => exact good_add_field heq ih
  | add_enum n v p _ heq ih => exact good_add_enum heq ih
  | add_struct n v f _ heq ih => exact good_add_struct heq ih
  | add_list n xs f _ heq ih => exact good_add_list heq ih

/-- Witness for C10 at the freshly created context. -/
theorem C10_builder_no_empty_error_witness :
    ValidationContext.new.state = .Passed ∨
    ∃ e, ValidationContext.new.state = .Error e ∧ e.is_empty = false :=
  C10_builder_no_empty_error ValidationContext.new ReachableCtx.new

end CycloneDx
